import Mathlib

/-!
Verification development for the area-code resolution and phone-number
selection core of the Offboarding-Automation repository.

The definitions below are a shallow embedding of the Python sources
src/area_code.py (postal-code parsing, the area-code oracle client, the
area-code resolver and its process-wide cache) and the candidate
capture/selection logic of src/login_ghl.py.  The external
text-completion oracle is modelled as an environment of reply strings
(a value of none models a transport failure or a raised exception
inside the outbound call); everything after the reply is received is
translated from the source, character-class scanning included.
Regular-expression scans of the source are implemented as explicit
scanners over character lists, restricted to ASCII character classes
(the inputs of interest are ASCII).
-/

namespace AreaCodeCore

/-! ### Character classes and generic scanners -/

/-- ASCII model of the character class matched by the Python regex
class backslash-s (whitespace): space, tab, LF, CR, VT, FF. -/
def pySpace (c : Char) : Bool :=
  c == ' ' || c == '\t' || c == '\n' || c == '\r' ||
  c == Char.ofNat 11 || c == Char.ofNat 12

/-- ASCII model of a regex word character (class backslash-w):
letters, digits and underscore.  Word boundaries in the source regexes
separate word characters from non-word characters. -/
def isWordChar (c : Char) : Bool :=
  c.isDigit || c.isAlpha || c == '_'

/-- Python str.strip: drop leading and trailing whitespace. -/
def pyStrip (s : String) : String :=
  ⟨((s.toList.dropWhile pySpace).reverse.dropWhile pySpace).reverse⟩

/-- Match a literal list of characters at the head of the input,
returning the remainder on success. -/
def matchLit : List Char → List Char → Option (List Char)
  | [], cs => some cs
  | _ :: _, [] => none
  | l :: ls, c :: cs => if l == c then matchLit ls cs else none

/-- Consume exactly n digits from the head of the input, returning the
digits and the remainder. -/
def takeDigitsN : Nat → List Char → Option (List Char × List Char)
  | 0, cs => some ([], cs)
  | _ + 1, [] => none
  | n + 1, c :: cs =>
    if c.isDigit then
      (takeDigitsN n cs).map (fun p => (c :: p.1, p.2))
    else none

/-- Maximal runs of word characters in a character list.  The first
argument accumulates the (reversed) current run. -/
def wordRunsAux (cur : List Char) : List Char → List (List Char)
  | [] => if cur.isEmpty then [] else [cur.reverse]
  | c :: cs =>
    if isWordChar c then wordRunsAux (c :: cur) cs
    else if cur.isEmpty then wordRunsAux [] cs
    else cur.reverse :: wordRunsAux [] cs

/-- Model of the Python regex findall for a run of exactly n digits
between word boundaries: the maximal word-character runs that consist
of exactly n digits. -/
def boundedDigitTokensL (n : Nat) (cs : List Char) : List String :=
  ((wordRunsAux [] cs).filter
    (fun r => r.length == n && r.all Char.isDigit)).map (fun r => ⟨r⟩)

/-- Code-point lexicographic comparison of character lists, the order
Python uses to compare and sort strings. -/
def listLexLe : List Char → List Char → Bool
  | [], _ => true
  | _ :: _, [] => false
  | a :: as, b :: bs =>
    if a == b then listLexLe as bs else decide (a.toNat < b.toNat)

/-- Python string comparison a <= b. -/
def pyStrLe (a b : String) : Bool := listLexLe a.toList b.toList

/-- Substring test: does pat occur contiguously inside s. -/
def listHasSub : List Char → List Char → Bool
  | cs, pat =>
    match cs with
    | [] => pat.isEmpty
    | _ :: rest => pat.isPrefixOf cs || listHasSub rest pat

/-- Substring test on strings (the Python `in` operator). -/
def hasSub (s pat : String) : Bool := listHasSub s.toList pat.toList

/-! ### PostalCodeParser: parse_zip_codes (src/area_code.py 277-319) -/

/-- Characters the source normalizes to a comma separator
(regex class: whitespace, semicolon, pipe). -/
def isSepChar (c : Char) : Bool := pySpace c || c == ';' || c == '|'

/-- Model of re.sub replacing every maximal run of separator characters
with a single comma. -/
def normalizeSeps : List Char → List Char
  | [] => []
  | [c] => if isSepChar c then [','] else [c]
  | c :: d :: cs =>
    if isSepChar c then
      if isSepChar d then normalizeSeps (d :: cs)
      else ',' :: normalizeSeps (d :: cs)
    else c :: normalizeSeps (d :: cs)

/-- Python str.split on a comma: chunks between commas, empties kept. -/
def splitCommaAux (cur : List Char) : List Char → List (List Char)
  | [] => [cur.reverse]
  | c :: cs =>
    if c == ',' then cur.reverse :: splitCommaAux [] cs
    else splitCommaAux (c :: cur) cs

/-- A scalar element of a JSON array, as relevant to the source. -/
inductive JsonScalar where
  | jstr : String → JsonScalar
  | jint : Int → JsonScalar
deriving DecidableEq

/-- Python str() of a JSON scalar. -/
def jsonScalarStr : JsonScalar → String
  | .jstr s => s
  | .jint n => toString n

/-- Python truthiness of a JSON scalar (used by the comprehension
filter in the source). -/
def jsonScalarTruthy : JsonScalar → Bool
  | .jstr s => s != ""
  | .jint n => n != 0

/-- JSON insignificant whitespace. -/
def jsonWs (cs : List Char) : List Char :=
  cs.dropWhile (fun c => c == ' ' || c == '\t' || c == '\n' || c == '\r')

/-- Parse the body of a JSON string literal (after the opening quote),
returning the decoded characters and the remainder after the closing
quote.  Unicode escapes are not modelled (treated as unparseable). -/
def jsonStringAux : List Char → Option (List Char × List Char)
  | [] => none
  | '"' :: rest => some ([], rest)
  | '\\' :: e :: rest =>
    (show Option Char from
      match e with
      | '"' => some '"'
      | '\\' => some '\\'
      | '/' => some '/'
      | 'n' => some '\n'
      | 't' => some '\t'
      | 'r' => some '\r'
      | 'b' => some (Char.ofNat 8)
      | 'f' => some (Char.ofNat 12)
      | _ => none).bind
      (fun d => (jsonStringAux rest).map (fun p => (d :: p.1, p.2)))
  | c :: rest =>
    if c.toNat < 32 then none
    else (jsonStringAux rest).map (fun p => (c :: p.1, p.2))

/-- Digits to a natural number. -/
def digitsToNat (ds : List Char) : Nat :=
  ds.foldl (fun n c => n * 10 + (c.toNat - 48)) 0

/-- Parse a JSON integer (floats are not modelled: a fractional part or
exponent makes the whole input unparseable). -/
def jsonIntParse (cs : List Char) : Option (Int × List Char) :=
  let (neg, cs1) := match cs with
    | '-' :: rest => (true, rest)
    | _ => (false, cs)
  let ds := cs1.takeWhile Char.isDigit
  let rest := cs1.drop ds.length
  if ds.isEmpty then none
  else if ds.length > 1 && ds.headD '0' == '0' then none
  else match rest with
    | '.' :: _ => none
    | 'e' :: _ => none
    | 'E' :: _ => none
    | _ =>
      let v : Int := Int.ofNat (digitsToNat ds)
      some (if neg then -v else v, rest)

/-- Parse one JSON array element (string or integer). -/
def jsonElem (cs : List Char) : Option (JsonScalar × List Char) :=
  match cs with
  | '"' :: rest => (jsonStringAux rest).map (fun p => (.jstr ⟨p.1⟩, p.2))
  | _ => (jsonIntParse cs).map (fun p => (.jint p.1, p.2))

/-- Parse the remaining elements of a JSON array (fuel-indexed; the
fuel is an upper bound on the number of elements). -/
def jsonElems : Nat → List Char → List JsonScalar → Option (List JsonScalar)
  | 0, _, _ => none
  | fuel + 1, cs, acc =>
    (jsonElem (jsonWs cs)).bind (fun p =>
      match jsonWs p.2 with
      | ']' :: tail =>
        if (jsonWs tail).isEmpty then some (acc ++ [p.1]) else none
      | ',' :: tail => jsonElems fuel tail (acc ++ [p.1])
      | _ => none)

/-- Model of json.loads restricted to the case the source cares about:
the input is a JSON array (of strings or integers).  Any other JSON
value, and any text that is not such an array, yields none, which in
the source corresponds to json.loads raising or returning a non-list. -/
def jsonListParse (s : String) : Option (List JsonScalar) :=
  match jsonWs s.toList with
  | '[' :: rest =>
    (match jsonWs rest with
     | ']' :: tail => if (jsonWs tail).isEmpty then some [] else none
     | other => jsonElems (other.length + 1) other [])
  | _ => none

/-- Input to parse_zip_codes: the source accepts a string or a list. -/
inductive ZipInput where
  | str : String → ZipInput
  | list : List String → ZipInput

/-- The non-JSON string path of parse_zip_codes: normalize separator
runs to commas, split on commas, collect the word-bounded runs of
exactly five digits from every chunk, deduplicate. -/
def parseFallbackTokens (s : String) : List String :=
  (((splitCommaAux [] (normalizeSeps s.toList)).map
    (fun ch => boundedDigitTokensL 5 ch)).flatten).dedup

/-- Embedding of parse_zip_codes (src/area_code.py lines 277-319).
A list input is trimmed with empties dropped.  A string input is first
tried as a JSON array; otherwise separator runs are normalized to
commas, the string is split on commas, and every word-bounded run of
exactly five digits is collected; the final list is deduplicated
(the source builds a Python set, whose iteration order is not
significant downstream, so the model picks the canonical dedup). -/
def parse_zip_codes : ZipInput → List String
  | .list l => (l.filter (fun z => z != "")).map pyStrip
  | .str s =>
    if s == "" then []
    else
      match jsonListParse s with
      | some items =>
        (items.filter jsonScalarTruthy).map (fun i => pyStrip (jsonScalarStr i))
      | none => parseFallbackTokens s

/-- Definition following the words of the specification claim for the
parser fallback: all maximal runs of exactly five consecutive digits
bounded by non-digit characters or the string edges, taken after
separator normalization.  (The source instead requires word
boundaries; compare boundedDigitTokensL.) -/
def specDigitRunsAux (cur : List Char) : List Char → List (List Char)
  | [] => if cur.isEmpty then [] else [cur.reverse]
  | c :: cs =>
    if c.isDigit then specDigitRunsAux (c :: cur) cs
    else if cur.isEmpty then specDigitRunsAux [] cs
    else cur.reverse :: specDigitRunsAux [] cs

/-- The claim-side extraction for parse_zip_codes: length-5 maximal
digit runs of the normalized string, bounded by non-digits or edges. -/
def specDigitTokens5 (s : String) : List String :=
  ((specDigitRunsAux [] (normalizeSeps s.toList)).filter
    (fun r => r.length == 5)).map (fun r => ⟨r⟩)

/-! ### AreaCodeOracleClient: cache and lookups (src/area_code.py 20-93, 183-275) -/

/-- Ordered association list of postal code to area-code list,
modelling both the Python dict results and the process-wide cache
_area_code_cache (insertion-ordered, as Python dicts are). -/
abbrev StrDict := List (String × List String)

/-- Dict lookup. -/
def dictLookup : StrDict → String → Option (List String)
  | [], _ => none
  | p :: rest, k => if p.1 == k then some p.2 else dictLookup rest k

/-- Dict assignment: replace the entry in place if the key is present,
append otherwise (Python dict assignment order semantics). -/
def dictInsert : StrDict → String → List String → StrDict
  | [], k, v => [(k, v)]
  | p :: rest, k, v =>
    if p.1 == k then (k, v) :: rest else p :: dictInsert rest k v

/-- Python double-splat merge of two dicts: entries of the second are
assigned over the first, in order. -/
def dictMerge (a b : StrDict) : StrDict :=
  b.foldl (fun acc p => dictInsert acc p.1 p.2) a

/-- The cache has the same representation as a result dict. -/
abbrev Cache := StrDict

/-- The external oracle environment.  apiKey models whether the
OPENAI_API_KEY credential is configured; the reply fields give the
text content the oracle returns for a single-code or batch request,
with none modelling a transport failure (an exception raised inside
the outbound call). -/
structure OracleEnv where
  apiKey : Bool
  singleReply : String → Option String
  batchReply : List String → Option String

/-- Scanner for the regex searching a reply for a header of the form
"### Area Code: " followed by three digits, returning the digits of
the leftmost match. -/
def tryAreaHeaderAt (cs : List Char) : Option String :=
  (matchLit "### Area Code: ".toList cs).bind (fun r =>
    (takeDigitsN 3 r).map (fun p => (⟨p.1⟩ : String)))

/-- Leftmost match of the "### Area Code: " header regex. -/
def searchAreaHeader : List Char → Option String
  | [] => none
  | c :: cs =>
    match tryAreaHeaderAt (c :: cs) with
    | some code => some code
    | none => searchAreaHeader cs

/-- Embedding of get_area_codes_for_zip_openai (src/area_code.py lines
25-66): with no credential, a transport failure, or a reply without an
area-code header, the result is the empty list; otherwise a singleton
of the first header's digits. -/
def get_area_codes_for_zip_openai (env : OracleEnv) (zip_code : String) :
    List String :=
  if !env.apiKey then []
  else
    match env.singleReply zip_code with
    | none => []
    | some content =>
      match searchAreaHeader content.toList with
      | some code => [code]
      | none => []

/-- Result of a cached single-code lookup: the returned area codes,
the cache after the call, and the number of outbound oracle requests
the call issued. -/
structure SingleOut where
  codes : List String
  cache : Cache
  calls : Nat
deriving DecidableEq

/-- Embedding of get_area_codes_for_zip (src/area_code.py lines
68-93): cache first; on a miss the oracle result - the empty list
included - is stored in the cache.  An outbound request is issued only
on a cache miss with a configured credential. -/
def get_area_codes_for_zip (env : OracleEnv) (zip_code : String)
    (cache : Cache) : SingleOut :=
  match dictLookup cache zip_code with
  | some codes => ⟨codes, cache, 0⟩
  | none =>
    let openai_codes := get_area_codes_for_zip_openai env zip_code
    ⟨openai_codes, dictInsert cache zip_code openai_codes,
      if env.apiKey then 1 else 0⟩

/-- One attempted match, at the current position, of the batch-reply
section regex: the literal "### Area Code: ", three digits, optional
whitespace, the literal Overlays marker, a lazy gap up to the ZIPs
marker, then the rest of that line (at least one character).  Returns
the area-code digits, the ZIPs line, and the remainder of the input
after the match. -/
def scanForZips : List Char → Option (String × List Char)
  | [] => none
  | c :: cs =>
    match matchLit "**ZIPs:** ".toList (c :: cs) with
    | some rest =>
      let line := rest.takeWhile (fun ch => ch != '\n')
      if line.isEmpty then scanForZips cs
      else some (⟨line⟩, rest.drop line.length)
    | none => scanForZips cs

def trySectionAt (cs : List Char) : Option (String × String × List Char) :=
  (matchLit "### Area Code: ".toList cs).bind (fun r1 =>
    (takeDigitsN 3 r1).bind (fun p =>
      let r3 := p.2.dropWhile pySpace
      (matchLit "**Overlays:**".toList r3).bind (fun r4 =>
        (scanForZips r4).map (fun q => ((⟨p.1⟩ : String), q.1, q.2)))))

/-- All non-overlapping matches of the section regex, scanned left to
right (model of re.findall with DOTALL).  Fuel-indexed; the fuel is an
upper bound on the input length, and every step consumes at least one
character, so the given fuel is never exhausted early. -/
def findSectionsAux : Nat → List Char → List (String × String)
  | 0, _ => []
  | _ + 1, [] => []
  | fuel + 1, c :: cs =>
    match trySectionAt (c :: cs) with
    | some (code, zipsStr, rest) => (code, zipsStr) :: findSectionsAux fuel rest
    | none => findSectionsAux fuel cs

def findSections (cs : List Char) : List (String × String) :=
  findSectionsAux cs.length cs

/-- The cached part of a batch request: entries of the cache for the
requested postal codes, in request order. -/
def cachedPart (cache : Cache) (zips : List String) : StrDict :=
  zips.foldl (fun acc z =>
    match dictLookup cache z with
    | some v => dictInsert acc z v
    | none => acc) []

/-- The uncached part of a batch request, in request order. -/
def uncachedPart (cache : Cache) (zips : List String) : List String :=
  zips.filter (fun z => (dictLookup cache z).isNone)

/-- Structured fill for one section: every five-digit token of the
section's ZIPs line that is among the requested uncached codes is
mapped to the section's area code, in the result and in the cache. -/
def fillZips (code : String) (uncached : List String) (zs : List String)
    (st : StrDict × Cache) : StrDict × Cache :=
  zs.foldl (fun st z =>
    if uncached.contains z then
      (dictInsert st.1 z [code], dictInsert st.2 z [code])
    else st) st

/-- Structured fill over all parsed sections (src/area_code.py lines
247-255). -/
def structuredFill (uncached : List String) :
    List (String × String) → StrDict × Cache → StrDict × Cache
  | [], st => st
  | (code, zipsStr) :: rest, st =>
    structuredFill uncached rest
      (fillZips code uncached (boundedDigitTokensL 5 zipsStr.toList) st)

/-- Positional fallback fill: each requested uncached code is paired
with the three-digit token at its position (src/area_code.py lines
258-265). -/
def positionalFill (pairs : List (String × String)) (st : StrDict × Cache) :
    StrDict × Cache :=
  pairs.foldl (fun st p =>
    (dictInsert st.1 p.1 [p.2], dictInsert st.2 p.1 [p.2])) st

/-- Result of a batch lookup. -/
structure BatchOut where
  result : StrDict
  cache : Cache
  calls : Nat
deriving DecidableEq

/-- The reply-parsing part of a batch lookup: the structured parse, and
after it - only if it produced nothing and the reply has at least as
many three-digit tokens as there are uncached codes - the positional
fallback; the new results are merged over the cached ones. -/
def batchContentResult (cached_results : StrDict) (uncached_zips : List String)
    (cache : Cache) (content : String) : BatchOut :=
  if (structuredFill uncached_zips (findSections content.toList)
      ([], cache)).1.isEmpty then
    if uncached_zips.length ≤ (boundedDigitTokensL 3 content.toList).length then
      ⟨dictMerge cached_results
        (positionalFill (uncached_zips.zip (boundedDigitTokensL 3 content.toList))
          ([], (structuredFill uncached_zips (findSections content.toList)
            ([], cache)).2)).1,
       (positionalFill (uncached_zips.zip (boundedDigitTokensL 3 content.toList))
          ([], (structuredFill uncached_zips (findSections content.toList)
            ([], cache)).2)).2, 1⟩
    else ⟨dictMerge cached_results [],
      (structuredFill uncached_zips (findSections content.toList) ([], cache)).2, 1⟩
  else ⟨dictMerge cached_results
    (structuredFill uncached_zips (findSections content.toList) ([], cache)).1,
    (structuredFill uncached_zips (findSections content.toList) ([], cache)).2, 1⟩

/-- Embedding of get_area_codes_batch_openai (src/area_code.py lines
183-275).  Cached codes are served from the cache; one outbound
request covers all uncached codes; the reply is parsed by
batchContentResult; a transport failure yields the empty dict. -/
def get_area_codes_batch_openai (env : OracleEnv) (zip_codes : List String)
    (cache : Cache) : BatchOut :=
  if !env.apiKey || zip_codes.isEmpty then ⟨[], cache, 0⟩
  else if (uncachedPart cache zip_codes).isEmpty then
    ⟨cachedPart cache zip_codes, cache, 0⟩
  else
    match env.batchReply (uncachedPart cache zip_codes) with
    | none => ⟨[], cache, 1⟩
    | some content =>
      batchContentResult (cachedPart cache zip_codes)
        (uncachedPart cache zip_codes) cache content

/-! ### AreaCodeResolver (src/area_code.py 95-181) -/

/-- Intersection of a family of area-code lists, as a deduplicated
list drawn from the first member (the source intersects Python sets;
only the value set of the result is significant). -/
def interAll : List (List String) → List String
  | [] => []
  | l :: ls => ls.foldl (fun acc m => acc.filter (fun x => m.contains x)) l.dedup

/-- The common-codes computation of the source (line 134): the sorted
intersection of the per-code area-code lists; the sort is by Python
string comparison (code-point lexicographic, ascending). -/
def commonFrom (d : StrDict) : List String :=
  List.insertionSort (fun a b => pyStrLe a b = true)
    (interAll (d.map (fun p => p.2)))

/-- Result of get_common_area_codes. -/
structure CommonOut where
  all : StrDict
  common : List String
  cache : Cache
  calls : Nat
deriving DecidableEq

/-- The trimmed, non-empty request list (source line 112). -/
def cleanZipsOf (zip_codes : List String) : List String :=
  (zip_codes.map pyStrip).filter (fun z => z != "")

/-- The batch-first seed of the per-code map (source lines 117-122):
for more than one code, the batch result when it is non-empty. -/
def commonBatchSeed (env : OracleEnv) (clean_zips : List String)
    (cache : Cache) : StrDict × Cache × Nat :=
  if 1 < clean_zips.length then
    if (get_area_codes_batch_openai env clean_zips cache).result.isEmpty then
      ([], (get_area_codes_batch_openai env clean_zips cache).cache,
        (get_area_codes_batch_openai env clean_zips cache).calls)
    else ((get_area_codes_batch_openai env clean_zips cache).result,
      (get_area_codes_batch_openai env clean_zips cache).cache,
      (get_area_codes_batch_openai env clean_zips cache).calls)
  else ([], cache, 0)

/-- The fill-in loop of the source (lines 125-129): individual lookups
for codes missing from the map; a code whose lookup yields no area
codes is omitted from the map. -/
def commonFill (env : OracleEnv) (clean_zips : List String)
    (st0 : StrDict × Cache × Nat) : StrDict × Cache × Nat :=
  clean_zips.foldl
    (fun (st : StrDict × Cache × Nat) z =>
      if (dictLookup st.1 z).isSome then st
      else
        if (get_area_codes_for_zip env z st.2.1).codes.isEmpty then
          (st.1, (get_area_codes_for_zip env z st.2.1).cache,
            st.2.2 + (get_area_codes_for_zip env z st.2.1).calls)
        else
          (dictInsert st.1 z (get_area_codes_for_zip env z st.2.1).codes,
            (get_area_codes_for_zip env z st.2.1).cache,
            st.2.2 + (get_area_codes_for_zip env z st.2.1).calls))
    st0

/-- The final step of get_common_area_codes (source lines 131-137). -/
def commonFinish (st1 : StrDict × Cache × Nat) : CommonOut :=
  if st1.1.isEmpty then ⟨[], [], st1.2.1, st1.2.2⟩
  else ⟨st1.1, commonFrom st1.1, st1.2.1, st1.2.2⟩

/-- Embedding of get_common_area_codes (src/area_code.py lines
95-137): batch lookup first when more than one code is requested, then
individual lookups for codes still missing, and finally the sorted
intersection of the per-code area-code lists. -/
def get_common_area_codes (env : OracleEnv) (zip_codes : List String)
    (cache : Cache) : CommonOut :=
  if zip_codes.isEmpty then ⟨[], [], cache, 0⟩
  else if (cleanZipsOf zip_codes).isEmpty then ⟨[], [], cache, 0⟩
  else commonFinish (commonFill env (cleanZipsOf zip_codes)
    (commonBatchSeed env (cleanZipsOf zip_codes) cache))

/-- Input to get_best_area_code: a single string (possibly
comma-separated) or a list. -/
inductive ZipsArg where
  | str : String → ZipsArg
  | list : List String → ZipsArg

/-- Result of get_best_area_code. -/
structure BestOut where
  best : Option String
  all : StrDict
  common : List String
  cache : Cache
  calls : Nat
deriving DecidableEq

/-- Input normalization of get_best_area_code (source lines 154-164):
split a comma-containing string, wrap a single string, keep a list;
then drop empties. -/
def bestZipList (zip_codes : ZipsArg) : List String :=
  (match zip_codes with
   | .str s =>
     if s.toList.contains ',' then
       (splitCommaAux [] s.toList).map (fun cs => pyStrip ⟨cs⟩)
     else [pyStrip s]
   | .list l => l).filter (fun z => z != "")

/-- The selection policy of get_best_area_code (source lines 171-181):
the first common code when one exists, else the first area code of the
first resolved postal code, else none. -/
def bestFromCommon (cr : CommonOut) : BestOut :=
  match cr.common with
  | c :: _ => ⟨some c, cr.all, cr.common, cr.cache, cr.calls⟩
  | [] =>
    match cr.all with
    | (_, codes) :: _ =>
      match codes with
      | code :: _ => ⟨some code, cr.all, cr.common, cr.cache, cr.calls⟩
      | [] => ⟨none, cr.all, cr.common, cr.cache, cr.calls⟩
    | [] => ⟨none, cr.all, cr.common, cr.cache, cr.calls⟩

/-- Embedding of get_best_area_code (src/area_code.py lines 139-181). -/
def get_best_area_code (env : OracleEnv) (zip_codes : ZipsArg)
    (cache : Cache) : BestOut :=
  if (bestZipList zip_codes).isEmpty then ⟨none, [], [], cache, 0⟩
  else bestFromCommon (get_common_area_codes env (bestZipList zip_codes) cache)

/-! ### CandidateSelector (src/login_ghl.py 455-593)

The browser collaborator hands over the rendered, displayed table rows;
each candidate is modelled by its raw row text.  The row position of a
candidate is its index in the handed-over list (top-most rendered row
first), which is the order the source iterates in. -/

/-- A rendered phone-number row, by its raw text. -/
structure PhoneRow where
  text : String
deriving DecidableEq

/-- The source's filter for a candidate row (line 500): contains the
country code marker and a digit, and is not an existing number row
(marked by the text "Default Number"). -/
def isPhoneRow (t : String) : Bool :=
  hasSub t "+1" && t.toList.any Char.isDigit && !(hasSub t "Default Number")

/-- The source's target-area-code test for a row (line 502): a target
was supplied (a non-empty string) and the row text contains the
country code, a space, and the target digits. -/
def rowMatchesArea (area_code : Option String) (t : String) : Bool :=
  match area_code with
  | some a => a != "" && hasSub t ("+1 " ++ a)
  | none => false

/-- Embedding of get_fresh_phone_data (src/login_ghl.py lines
455-513): candidate rows are collected in order; a row matching the
target area code is inserted at the front of the list built so far,
any other candidate row is appended at the back. -/
def get_fresh_phone_data (area_code : Option String) (rows : List PhoneRow) :
    List PhoneRow :=
  rows.foldl (fun acc row =>
    if isPhoneRow row.text then
      if rowMatchesArea area_code row.text then row :: acc
      else acc ++ [row]
    else acc) []

/-- One attempted match, at the current position, of the phone-number
regex (country code, optional whitespace, 3-3-4 digits), returning the
matched text and its three area-code digits.  The source extracts the
area digits by a second regex applied to the matched text, which by
construction yields exactly these digits. -/
def tryPhoneAt (cs : List Char) : Option (String × String) :=
  match cs with
  | '+' :: '1' :: rest =>
    let ws := rest.takeWhile pySpace
    let r1 := rest.drop ws.length
    (takeDigitsN 3 r1).bind (fun p =>
      match p.2 with
      | '-' :: r3 =>
        (takeDigitsN 3 r3).bind (fun q =>
          match q.2 with
          | '-' :: r5 =>
            (takeDigitsN 4 r5).map (fun t =>
              ((⟨'+' :: '1' :: (ws ++ p.1 ++ '-' :: (q.1 ++ '-' :: t.1))⟩ : String),
                (⟨p.1⟩ : String)))
          | _ => none)
      | _ => none)
  | _ => none

/-- Leftmost match of the phone-number regex in a row text. -/
def searchPhoneParts : List Char → Option (String × String)
  | [] => none
  | c :: cs =>
    match tryPhoneAt (c :: cs) with
    | some r => some r
    | none => searchPhoneParts cs

/-- Reason component of a selection outcome, following the
specification's vocabulary: a verified target match, a first-available
selection when no target was supplied, no candidate rows at all, and
AllCandidatesInvalid for the capture-marked failure modes (the
source's "Unknown", "Existing" and "Wrong Area" markers). -/
inductive SelectionReason where
  | MatchedAreaCode
  | FirstAvailableFallback
  | NoCandidates
  | AllCandidatesInvalid
deriving DecidableEq

/-- Outcome of the capture-click-return path.  selected is the row
whose radio button is clicked and whose captured info is returned as
selected_phone_number; phone_number is the recorded phone_number
field, which the source overwrites with the markers "Existing",
"Wrong Area" or "Unknown" when the capture is flagged. -/
structure SelectionOutcome where
  selected : Option PhoneRow
  phone_number : String
  reason : SelectionReason
deriving DecidableEq

/-- A row flagged as an existing/already-assigned number: the source
recognizes these by the texts "Default Number" (filtered out when
candidates are collected, line 500) and "Current" (marked "Existing"
after capture, line 532). -/
def isExistingAssigned (r : PhoneRow) : Bool :=
  hasSub r.text "Default Number" || hasSub r.text "Current"

/-- Embedding of the capture, marking, click and return logic applied
to the top candidate (src/login_ghl.py lines 515-633, 772-773, 912):
the first collected row is taken; if no phone number can be extracted,
phone_number stays "Unknown", the click block is skipped (line 608)
and nothing is returned as selected.  In every other case the first
row's radio button is clicked (line 614, guarded only by
phone_number != "Unknown"), the purchase proceeds (proceed_anyway is
True, lines 772-773) and the captured info is returned as
selected_phone_number (line 912) - including when the row text carries
an existing-number marker (phone_number becomes "Existing") or, with a
target area code, when the extracted area code mismatches
(phone_number becomes "Wrong Area").  The marked cases therefore still
select the row; only the recorded phone_number and the reason reflect
the flag. -/
def selectPhone (area_code : Option String) (rows : List PhoneRow) :
    SelectionOutcome :=
  match get_fresh_phone_data area_code rows with
  | [] => ⟨none, "Unknown", .NoCandidates⟩
  | first :: _ =>
    match searchPhoneParts first.text.toList with
    | none => ⟨none, "Unknown", .AllCandidatesInvalid⟩
    | some (phone, found_area) =>
      if hasSub first.text "Default Number" || hasSub first.text "Current" then
        ⟨some first, "Existing", .AllCandidatesInvalid⟩
      else
        match area_code with
        | none => ⟨some first, phone, .FirstAvailableFallback⟩
        | some a =>
          if a == "" then ⟨some first, phone, .FirstAvailableFallback⟩
          else if found_area == a then ⟨some first, phone, .MatchedAreaCode⟩
          else ⟨some first, "Wrong Area", .AllCandidatesInvalid⟩

/-! ### Dictionary lemmas -/

theorem dictLookup_insert_self (d : StrDict) (k : String) (v : List String) :
    dictLookup (dictInsert d k v) k = some v := by
  induction d with
  | nil => simp [dictInsert, dictLookup]
  | cons p rest ih =>
    by_cases h : p.1 = k
    · simp [dictInsert, dictLookup, h]
    · simp [dictInsert, dictLookup, h, ih]

theorem dictLookup_insert_ne (d : StrDict) (k k2 : String) (v : List String)
    (h : k ≠ k2) : dictLookup (dictInsert d k2 v) k = dictLookup d k := by
  induction d with
  | nil => simp [dictInsert, dictLookup, Ne.symm h]
  | cons p rest ih =>
    by_cases hp : p.1 = k2
    · simp [dictInsert, dictLookup, hp, Ne.symm h]
    · by_cases hk : p.1 = k
      · simp [dictInsert, dictLookup, hp, hk, h]
      · simp [dictInsert, dictLookup, hp, hk, ih]

theorem dictMerge_lookup_none (a b : StrDict) (k : String)
    (h : dictLookup b k = none) :
    dictLookup (dictMerge a b) k = dictLookup a k := by
  induction b generalizing a with
  | nil => simp [dictMerge]
  | cons p rest ih =>
    simp only [dictLookup] at h
    by_cases hp : p.1 = k
    · simp [hp] at h
    · rw [if_neg (by simpa using hp)] at h
      simp only [dictMerge, List.foldl_cons]
      show dictLookup (dictMerge (dictInsert a p.1 p.2) rest) k = dictLookup a k
      rw [ih (dictInsert a p.1 p.2) h]
      exact dictLookup_insert_ne a k p.1 p.2 (Ne.symm hp)

theorem cachedPart_sub (cache : Cache) (zips : List String) (z : String)
    (w : List String) (h : dictLookup (cachedPart cache zips) z = some w) :
    dictLookup cache z = some w := by
  have main : ∀ (l : List String) (acc : StrDict),
      (∀ w2, dictLookup acc z = some w2 → dictLookup cache z = some w2) →
      ∀ w2, dictLookup (l.foldl (fun acc z2 =>
          match dictLookup cache z2 with
          | some v => dictInsert acc z2 v
          | none => acc) acc) z = some w2 →
        dictLookup cache z = some w2 := by
    intro l
    induction l with
    | nil => intro acc hacc w2 hw; exact hacc w2 hw
    | cons y ys ih =>
      intro acc hacc w2 hw
      simp only [List.foldl_cons] at hw
      cases hy : dictLookup cache y with
      | none => rw [hy] at hw; exact ih acc hacc w2 hw
      | some v =>
        rw [hy] at hw
        refine ih (dictInsert acc y v) ?_ w2 hw
        intro w3 hw3
        by_cases hz : z = y
        · subst hz
          rw [dictLookup_insert_self] at hw3
          cases hw3; exact hy
        · rw [dictLookup_insert_ne acc z y v hz] at hw3
          exact hacc w3 hw3
  exact main zips [] (by intro w2 hw; simp [dictLookup] at hw) w h

/-- An invariant preserved by every step of a left fold is preserved
by the whole fold. -/
theorem foldl_inv {α σ : Type _} (f : σ → α → σ) (P : σ → Prop)
    (l : List α) (h : ∀ s a, a ∈ l → P s → P (f s a)) (s : σ) (hs : P s) :
    P (l.foldl f s) := by
  induction l generalizing s with
  | nil => exact hs
  | cons a rest ih =>
    exact ih (fun s2 b hb => h s2 b (List.mem_cons_of_mem a hb)) (f s a)
      (h s a (List.mem_cons_self a rest) hs)

/-! ### Claim theorems: oracle client cache behavior -/

/-- Claim C5: two successive single-code lookups of the same postal
code issue at most one outbound oracle call in total - the first call
issues at most one and the second is served entirely from the cache -
and the second call returns the same area-code list as the first,
including when the first resolved to the empty list (which is cached
as well, so the oracle is not retried). -/
theorem c5_second_lookup_served_from_cache (env : OracleEnv) (z : String)
    (cache : Cache) :
    (get_area_codes_for_zip env z cache).calls ≤ 1 ∧
    (get_area_codes_for_zip env z (get_area_codes_for_zip env z cache).cache).calls = 0 ∧
    (get_area_codes_for_zip env z (get_area_codes_for_zip env z cache).cache).codes
      = (get_area_codes_for_zip env z cache).codes := by
  cases h : dictLookup cache z with
  | some codes =>
    simp [get_area_codes_for_zip, h]
  | none =>
    simp only [get_area_codes_for_zip, h]
    refine ⟨by split <;> simp, ?_, ?_⟩ <;>
      simp [dictLookup_insert_self]

theorem not_mem_uncached (cache : Cache) (zips : List String) (z : String)
    (v : List String) (h : dictLookup cache z = some v) :
    (uncachedPart cache zips).contains z = false := by
  rw [Bool.eq_false_iff]
  intro hc
  have hm : z ∈ uncachedPart cache zips := List.elem_iff.mp hc
  have := List.of_mem_filter hm
  rw [h] at this
  simp at this

theorem fillZips_pres (code : String) (uncached zs : List String)
    (st : StrDict × Cache) (z : String)
    (hz : uncached.contains z = false) :
    dictLookup (fillZips code uncached zs st).1 z = dictLookup st.1 z ∧
    dictLookup (fillZips code uncached zs st).2 z = dictLookup st.2 z := by
  refine foldl_inv _
    (fun s => dictLookup s.1 z = dictLookup st.1 z ∧
      dictLookup s.2 z = dictLookup st.2 z) zs ?_ st ⟨rfl, rfl⟩
  rintro s a _ ⟨h1, h2⟩
  by_cases hc : uncached.contains a = true
  · have hza : z ≠ a := by
      intro he; subst he; rw [hc] at hz; exact Bool.noConfusion hz
    simp only [hc, if_true]
    exact ⟨by rw [dictLookup_insert_ne _ _ _ _ hza]; exact h1,
      by rw [dictLookup_insert_ne _ _ _ _ hza]; exact h2⟩
  · simp only [hc, if_false]
    exact ⟨h1, h2⟩

theorem structuredFill_pres (uncached : List String)
    (sections : List (String × String)) (st : StrDict × Cache) (z : String)
    (hz : uncached.contains z = false) :
    dictLookup (structuredFill uncached sections st).1 z = dictLookup st.1 z ∧
    dictLookup (structuredFill uncached sections st).2 z = dictLookup st.2 z := by
  induction sections generalizing st with
  | nil => exact ⟨rfl, rfl⟩
  | cons sec rest ih =>
    obtain ⟨code, zipsStr⟩ := sec
    have h1 := fillZips_pres code uncached
      (boundedDigitTokensL 5 zipsStr.toList) st z hz
    have h2 := ih (fillZips code uncached (boundedDigitTokensL 5 zipsStr.toList) st)
    exact ⟨h2.1.trans h1.1, h2.2.trans h1.2⟩

theorem positionalFill_pres (pairs : List (String × String))
    (st : StrDict × Cache) (z : String) (hz : ∀ p ∈ pairs, p.1 ≠ z) :
    dictLookup (positionalFill pairs st).1 z = dictLookup st.1 z ∧
    dictLookup (positionalFill pairs st).2 z = dictLookup st.2 z := by
  refine foldl_inv _
    (fun s => dictLookup s.1 z = dictLookup st.1 z ∧
      dictLookup s.2 z = dictLookup st.2 z) pairs ?_ st ⟨rfl, rfl⟩
  rintro s a ha ⟨h1, h2⟩
  have hza : z ≠ a.1 := Ne.symm (hz a ha)
  exact ⟨by rw [dictLookup_insert_ne _ _ _ _ hza]; exact h1,
    by rw [dictLookup_insert_ne _ _ _ _ hza]; exact h2⟩

/-- The lookups of a cached key in the two batch fill phases are
unchanged, packaged for the batch theorem. -/
theorem batch_cache_pres (env : OracleEnv) (zips : List String) (cache : Cache)
    (z : String) (v : List String) (h : dictLookup cache z = some v) :
    dictLookup (get_area_codes_batch_openai env zips cache).cache z = some v ∧
    (∀ w, dictLookup (get_area_codes_batch_openai env zips cache).result z = some w →
      w = v) := by
  have hz : (uncachedPart cache zips).contains z = false :=
    not_mem_uncached cache zips z v h
  have hznm : z ∉ uncachedPart cache zips := by
    intro hm
    have hc : (uncachedPart cache zips).contains z = true := List.elem_iff.mpr hm
    rw [hz] at hc
    exact Bool.noConfusion hc
  have hcp : ∀ w, dictLookup (cachedPart cache zips) z = some w → w = v := by
    intro w hw
    have := cachedPart_sub cache zips z w hw
    rw [h] at this
    exact (Option.some_inj.mp this).symm
  have hcontent : ∀ content,
      dictLookup (batchContentResult (cachedPart cache zips)
        (uncachedPart cache zips) cache content).cache z = some v ∧
      (∀ w, dictLookup (batchContentResult (cachedPart cache zips)
        (uncachedPart cache zips) cache content).result z = some w → w = v) := by
    intro content
    have hsf := structuredFill_pres (uncachedPart cache zips)
      (findSections content.toList) ([], cache) z hz
    unfold batchContentResult
    split
    · split
      · have hpairs : ∀ p ∈ (uncachedPart cache zips).zip
            (boundedDigitTokensL 3 content.toList), p.1 ≠ z := by
          intro p hp he
          exact hznm (he ▸ (List.of_mem_zip hp).1)
        have hpf := positionalFill_pres
          ((uncachedPart cache zips).zip (boundedDigitTokensL 3 content.toList))
          ([], (structuredFill (uncachedPart cache zips)
            (findSections content.toList) ([], cache)).2) z hpairs
        constructor
        · rw [hpf.2]
          exact hsf.2.trans h
        · intro w hw
          rw [dictMerge_lookup_none _ _ _ (by
            rw [hpf.1]; simp [dictLookup])] at hw
          exact hcp w hw
      · constructor
        · exact hsf.2.trans h
        · intro w hw
          rw [dictMerge_lookup_none _ _ _ (by simp [dictLookup])] at hw
          exact hcp w hw
    · constructor
      · exact hsf.2.trans h
      · intro w hw
        rw [dictMerge_lookup_none _ _ _ (by
          rw [hsf.1]; simp [dictLookup])] at hw
        exact hcp w hw
  unfold get_area_codes_batch_openai
  split
  · exact ⟨h, by intro w hw; simp [dictLookup] at hw⟩
  · split
    · exact ⟨h, hcp⟩
    · split
      · exact ⟨h, by intro w hw; simp [dictLookup] at hw⟩
      · rename_i content _
        exact hcontent content

/-- Claim C10: once the cache holds an entry for a postal code - the
cached empty list included - no later single-code or batch lookup
overwrites it: the single lookup writes only its own uncached code and
the batch fills write only codes that were uncached when the call
began, so a cached entry survives every later operation unchanged, and
every later resolution of that code returns the first-stored value
(the single lookup returns it directly; a batch returns it whenever
its result contains the code at all). -/
theorem c10_cache_entries_write_once (env : OracleEnv) (z : String)
    (v : List String) (cache : Cache) (h : dictLookup cache z = some v) :
    (∀ z2, dictLookup (get_area_codes_for_zip env z2 cache).cache z = some v) ∧
    (∀ zips, dictLookup (get_area_codes_batch_openai env zips cache).cache z = some v) ∧
    (get_area_codes_for_zip env z cache).codes = v ∧
    (∀ zips w,
      dictLookup (get_area_codes_batch_openai env zips cache).result z = some w →
      w = v) := by
  refine ⟨?_, fun zips => (batch_cache_pres env zips cache z v h).1, ?_,
    fun zips => (batch_cache_pres env zips cache z v h).2⟩
  · intro z2
    unfold get_area_codes_for_zip
    cases h2 : dictLookup cache z2 with
    | some codes => exact h
    | none =>
      have hne : z ≠ z2 := by
        intro he; rw [he, h2] at h; exact Option.noConfusion h
      simpa [dictLookup_insert_ne _ _ _ _ hne] using h
  · unfold get_area_codes_for_zip
    rw [h]

/-- Closed witness for claim C10 at a concrete pre-populated cache. -/
theorem c10_cache_entries_write_once_witness :
    dictLookup [("75034", ["972"])] "75034" = some ["972"] ∧
    (∀ z2, dictLookup (get_area_codes_for_zip
      ⟨true, fun _ => none, fun _ => none⟩ z2 [("75034", ["972"])]).cache
      "75034" = some ["972"]) := by
  have h : dictLookup [("75034", ["972"])] "75034" = some ["972"] := by
    simp [dictLookup]
  exact ⟨h, (c10_cache_entries_write_once
    ⟨true, fun _ => none, fun _ => none⟩ "75034" ["972"]
    [("75034", ["972"])] h).1⟩

/-- Claim C9: the lookup operations never raise to the caller in a
degraded condition; a missing credential, a transport failure, or an
unparseable oracle reply each resolve to the empty area-code list
(single lookup) or to a mapping with no entry for the affected postal
codes (batch lookup).  The embedding is total, so raising is not
representable; the content of the claim is the empty results below. -/
theorem c9_degraded_conditions_resolve_empty (env : OracleEnv) (z : String)
    (zips : List String) (cache : Cache) :
    (env.apiKey = false →
      get_area_codes_for_zip_openai env z = [] ∧
      (get_area_codes_batch_openai env zips cache).result = []) ∧
    (env.singleReply z = none → get_area_codes_for_zip_openai env z = []) ∧
    (∀ content, env.singleReply z = some content →
      searchAreaHeader content.toList = none →
      get_area_codes_for_zip_openai env z = []) ∧
    ((uncachedPart cache zips).isEmpty = false →
      env.batchReply (uncachedPart cache zips) = none →
      (get_area_codes_batch_openai env zips cache).result = []) ∧
    (∀ content, env.batchReply (uncachedPart cache zips) = some content →
      (structuredFill (uncachedPart cache zips) (findSections content.toList)
        ([], cache)).1 = [] →
      (boundedDigitTokensL 3 content.toList).length <
        (uncachedPart cache zips).length →
      ∀ u ∈ uncachedPart cache zips,
        dictLookup (get_area_codes_batch_openai env zips cache).result u = none) := by
  have huncached_none : ∀ u ∈ uncachedPart cache zips,
      dictLookup (cachedPart cache zips) u = none := by
    intro u hu
    cases hw : dictLookup (cachedPart cache zips) u with
    | none => rfl
    | some w =>
      have := cachedPart_sub cache zips u w hw
      have hun := List.of_mem_filter hu
      rw [this] at hun
      simp at hun
  refine ⟨?_, ?_, ?_, ?_, ?_⟩
  · intro hk
    constructor
    · simp [get_area_codes_for_zip_openai, hk]
    · simp [get_area_codes_batch_openai, hk]
  · intro hr
    simp only [get_area_codes_for_zip_openai, hr]
    split <;> rfl
  · intro content hr hh
    simp only [get_area_codes_for_zip_openai, hr, hh]
    split <;> rfl
  · intro hne hr
    unfold get_area_codes_batch_openai
    split
    · rfl
    · rw [if_neg (by rw [hne]; exact Bool.false_ne_true), hr]
  · intro content hr hsf htok u hu
    unfold get_area_codes_batch_openai
    split
    · simp [dictLookup]
    · split
      · rename_i hemp
        have : uncachedPart cache zips = [] := by
          cases he : uncachedPart cache zips with
          | nil => rfl
          | cons a as => rw [he] at hemp; exact absurd hemp (by simp)
        rw [this] at hu
        exact absurd hu (List.not_mem_nil u)
      · rw [hr]
        dsimp only
        unfold batchContentResult
        rw [if_pos (by rw [hsf]; rfl),
          if_neg (by exact Nat.not_le_of_lt htok)]
        exact huncached_none u hu

/-- Closed witness for claim C9: a missing credential, a transport
failure, a reply with no area-code header, and a batch reply that
defeats both the structured parse and the positional fallback, each at
a concrete input. -/
theorem c9_degraded_conditions_resolve_empty_witness :
    get_area_codes_for_zip_openai ⟨false, fun _ => some "x", fun _ => some "x"⟩
      "75034" = [] ∧
    get_area_codes_for_zip_openai ⟨true, fun _ => none, fun _ => none⟩
      "75034" = [] ∧
    get_area_codes_for_zip_openai ⟨true, fun _ => some "no data",
      fun _ => some "no data"⟩ "75034" = [] ∧
    (get_area_codes_batch_openai ⟨true, fun _ => none, fun _ => none⟩
      ["75034"] []).result = [] ∧
    dictLookup (get_area_codes_batch_openai ⟨true, fun _ => some "no data",
      fun _ => some "no data"⟩ ["75034"] []).result "75034" = none := by
  refine ⟨((c9_degraded_conditions_resolve_empty
      ⟨false, fun _ => some "x", fun _ => some "x"⟩ "75034" [] []).1 rfl).1,
    (c9_degraded_conditions_resolve_empty
      ⟨true, fun _ => none, fun _ => none⟩ "75034" [] []).2.1 rfl,
    (c9_degraded_conditions_resolve_empty
      ⟨true, fun _ => some "no data", fun _ => some "no data"⟩
      "75034" [] []).2.2.1 "no data" rfl (by decide),
    (c9_degraded_conditions_resolve_empty
      ⟨true, fun _ => none, fun _ => none⟩ "75034" ["75034"] []).2.2.2.1
      (by decide) rfl,
    (c9_degraded_conditions_resolve_empty
      ⟨true, fun _ => some "no data", fun _ => some "no data"⟩
      "75034" ["75034"] []).2.2.2.2 "no data" rfl (by decide) (by decide)
      "75034" (by decide)⟩

/-! ### Order lemmas for the Python string comparison -/

theorem char_eq_of_toNat_eq {a b : Char} (h : a.toNat = b.toNat) : a = b :=
  Char.eq_of_val_eq (UInt32.toNat.inj h)

theorem listLexLe_refl (a : List Char) : listLexLe a a = true := by
  induction a with
  | nil => rfl
  | cons c cs ih => simp [listLexLe, ih]

theorem pyStrLe_refl (a : String) : pyStrLe a a = true :=
  listLexLe_refl a.toList

theorem listLexLe_total (a b : List Char) :
    listLexLe a b = true ∨ listLexLe b a = true := by
  induction a generalizing b with
  | nil => left; rfl
  | cons x xs ih =>
    cases b with
    | nil => right; rfl
    | cons y ys =>
      by_cases hxy : x = y
      · subst hxy
        rcases ih ys with h | h
        · left; simpa [listLexLe] using h
        · right; simpa [listLexLe] using h
      · have hne : x.toNat ≠ y.toNat := fun hh => hxy (char_eq_of_toNat_eq hh)
        rcases Nat.lt_or_ge x.toNat y.toNat with h | h
        · left; simp [listLexLe, hxy, h]
        · right
          have : y.toNat < x.toNat := Nat.lt_of_le_of_ne h (Ne.symm hne)
          simp [listLexLe, Ne.symm hxy, this]

theorem listLexLe_trans (a b c : List Char) (h1 : listLexLe a b = true)
    (h2 : listLexLe b c = true) : listLexLe a c = true := by
  induction a generalizing b c with
  | nil => rfl
  | cons x xs ih =>
    cases b with
    | nil => simp [listLexLe] at h1
    | cons y ys =>
      cases c with
      | nil => simp [listLexLe] at h2
      | cons z zs =>
        by_cases hxy : x = y
        · subst hxy
          rw [listLexLe, if_pos (by simp)] at h1
          by_cases hyz : x = z
          · subst hyz
            rw [listLexLe, if_pos (by simp)] at h2
            rw [listLexLe, if_pos (by simp)]
            exact ih ys zs h1 h2
          · rw [listLexLe, if_neg (by simpa using hyz)] at h2
            rw [listLexLe, if_neg (by simpa using hyz)]
            exact h2
        · rw [listLexLe, if_neg (by simpa using hxy)] at h1
          have hlt1 : x.toNat < y.toNat := of_decide_eq_true h1
          by_cases hyz : y = z
          · subst hyz
            rw [listLexLe, if_neg (by simpa using hxy)]
            exact h1
          · rw [listLexLe, if_neg (by simpa using hyz)] at h2
            have hlt2 : y.toNat < z.toNat := of_decide_eq_true h2
            have hlt : x.toNat < z.toNat := Nat.lt_trans hlt1 hlt2
            have hxz : x ≠ z := by
              intro he; subst he
              exact Nat.lt_irrefl _ hlt
            rw [listLexLe, if_neg (by simpa using hxz)]
            exact decide_eq_true hlt

instance : IsTotal String (fun a b => pyStrLe a b = true) :=
  ⟨fun a b => listLexLe_total a.toList b.toList⟩

instance : IsTrans String (fun a b => pyStrLe a b = true) :=
  ⟨fun a b c => listLexLe_trans a.toList b.toList c.toList⟩

/-! ### Resolver lemmas -/

theorem interAll_cons_mem (x : String) (l : List String)
    (ls : List (List String)) :
    x ∈ interAll (l :: ls) ↔ x ∈ l ∧ ∀ m ∈ ls, x ∈ m := by
  have main : ∀ (ls2 : List (List String)) (acc : List String),
      x ∈ ls2.foldl (fun acc m => acc.filter (fun y => m.contains y)) acc ↔
      x ∈ acc ∧ ∀ m ∈ ls2, x ∈ m := by
    intro ls2
    induction ls2 with
    | nil => intro acc; simp
    | cons m ms ih =>
      intro acc
      rw [List.foldl_cons, ih]
      constructor
      · rintro ⟨hmem, hall⟩
        rw [List.mem_filter] at hmem
        exact ⟨hmem.1, by
          intro m2 hm2
          rcases List.mem_cons.mp hm2 with he | hm3
          · subst he; exact List.elem_iff.mp hmem.2
          · exact hall m2 hm3⟩
      · rintro ⟨hmem, hall⟩
        refine ⟨List.mem_filter.mpr ⟨hmem, ?_⟩, ?_⟩
        · exact List.elem_iff.mpr (hall m (List.mem_cons_self m ms))
        · intro m2 hm2
          exact hall m2 (List.mem_cons_of_mem m hm2)
  rw [interAll, main]
  simp [List.mem_dedup]

theorem commonFrom_mem (d : StrDict) (x : String) :
    x ∈ commonFrom d ↔ x ∈ interAll (d.map (fun p => p.2)) :=
  (List.perm_insertionSort _ _).mem_iff

theorem commonFrom_sorted (d : StrDict) :
    List.Sorted (fun a b => pyStrLe a b = true) (commonFrom d) :=
  List.sorted_insertionSort _ _

theorem common_mem_characterization (env : OracleEnv) (zips : List String)
    (cache : Cache) (c : String) :
    c ∈ (get_common_area_codes env zips cache).common ↔
      ((get_common_area_codes env zips cache).all ≠ [] ∧
        ∀ e ∈ (get_common_area_codes env zips cache).all, c ∈ e.2) := by
  unfold get_common_area_codes
  split
  · simp
  · split
    · simp
    · unfold commonFinish
      split
      · simp
      · rename_i hemp
        have hne : (commonFill env (cleanZipsOf zips)
            (commonBatchSeed env (cleanZipsOf zips) cache)).1 ≠ [] := by
          intro he
          rw [he] at hemp
          exact hemp rfl
        obtain ⟨e, rest, hd⟩ := List.exists_cons_of_ne_nil hne
        rw [hd]
        simp only
        rw [commonFrom_mem]
        rw [show ((e :: rest).map (fun p => p.2)) = e.2 :: rest.map (fun p => p.2)
          from rfl]
        rw [interAll_cons_mem]
        constructor
        · rintro ⟨h1, h2⟩
          refine ⟨by simp, ?_⟩
          intro e2 he2
          rcases List.mem_cons.mp he2 with he | hm
          · subst he; exact h1
          · exact h2 e2.2 (List.mem_map_of_mem (fun p => p.2) hm)
        · rintro ⟨_, hall⟩
          refine ⟨hall e (List.mem_cons_self e rest), ?_⟩
          intro m hm
          rcases List.mem_map.mp hm with ⟨e2, he2, rfl⟩
          exact hall e2 (List.mem_cons_of_mem e he2)

theorem common_sorted (env : OracleEnv) (zips : List String) (cache : Cache) :
    List.Sorted (fun a b => pyStrLe a b = true)
      (get_common_area_codes env zips cache).common := by
  unfold get_common_area_codes
  split
  · simp
  · split
    · simp
    · unfold commonFinish
      split
      · simp
      · exact commonFrom_sorted _

/-- The oracle environment of the specification example in which the
batch reply resolves 75034 to 972 and nothing else, and single-code
replies carry no area-code header (so 99999 resolves to no codes). -/
def envBatch972 : OracleEnv :=
  { apiKey := true
    singleReply := fun _ => some "No area code data available."
    batchReply := fun _ =>
      some "### Area Code: 972\n**Overlays:** None\n**ZIPs:** 75034" }

/-- Counterexample to claim C2 as stated: resolving the set
{75034, 99999} where the oracle maps 75034 to 972 and 99999 to
nothing yields commonAreaCodes == ["972"], not the claimed [], because
the postal code that resolved to no area codes is omitted from the map
rather than forcing the intersection empty; the best code is then
chosen from the common list, not by the first-resolved fallback. -/
theorem c2_counterexample :
    (get_best_area_code envBatch972 (.list ["75034", "99999"]) []).common
      = ["972"] ∧
    (["972"] : List String) ≠ [] ∧
    (get_best_area_code envBatch972 (.list ["75034", "99999"]) []).all
      = [("75034", ["972"])] ∧
    (get_best_area_code envBatch972 (.list ["75034", "99999"]) []).cache
      = [("75034", ["972"]), ("99999", [])] ∧
    (get_best_area_code envBatch972 (.list ["75034", "99999"]) []).best
      = some "972" := by
  refine ⟨by decide, by decide, by decide, by decide, by decide⟩

/-- Claim C2 amended: commonAreaCodes is the ascending-sorted
intersection of the area-code lists recorded in allAreaCodes, and a
postal code that resolves to no area codes in the current call is
omitted from allAreaCodes (so it does not force the intersection
empty); in the example, resolve({75034, 99999}) with 75034 mapped to
972 and 99999 unresolved gives commonAreaCodes == ["972"] and
bestAreaCode == "972" via the common-codes path. -/
theorem c2_common_is_intersection_of_resolved (env : OracleEnv)
    (zips : List String) (cache : Cache) :
    (List.Sorted (fun a b => pyStrLe a b = true)
      (get_common_area_codes env zips cache).common ∧
     ∀ c, c ∈ (get_common_area_codes env zips cache).common ↔
       ((get_common_area_codes env zips cache).all ≠ [] ∧
         ∀ e ∈ (get_common_area_codes env zips cache).all, c ∈ e.2)) ∧
    (get_best_area_code envBatch972 (.list ["75034", "99999"]) []).common
      = ["972"] ∧
    (get_best_area_code envBatch972 (.list ["75034", "99999"]) []).best
      = some "972" := by
  exact ⟨⟨common_sorted env zips cache,
    fun c => common_mem_characterization env zips cache c⟩,
    by decide, by decide⟩

/-- bestFromCommon keeps the common list and, when that list is
non-empty, selects its first element. -/
theorem bestFromCommon_spec (cr : CommonOut) :
    (bestFromCommon cr).common = cr.common ∧
    (∀ c rest, cr.common = c :: rest → (bestFromCommon cr).best = some c) := by
  constructor
  · unfold bestFromCommon
    split
    · rfl
    · split
      · split <;> rfl
      · rfl
  · intro c rest h
    unfold bestFromCommon
    split
    · rename_i c2 rest2 hcom
      rw [h] at hcom
      cases hcom
      rfl
    · rename_i hcom
      rw [h] at hcom
      exact absurd hcom (by simp)

/-- Claim C3: whenever commonAreaCodes is non-empty the chosen best
area code is its first element, and by sortedness that element is the
least common code in the Python string order. -/
theorem c3_best_is_least_common (env : OracleEnv) (inp : ZipsArg)
    (cache : Cache) (c : String) (rest : List String)
    (h : (get_best_area_code env inp cache).common = c :: rest) :
    (get_best_area_code env inp cache).best = some c ∧
    ∀ d ∈ (get_best_area_code env inp cache).common, pyStrLe c d = true := by
  by_cases hif : (bestZipList inp).isEmpty = true
  · unfold get_best_area_code at h
    rw [if_pos hif] at h
    simp at h
  · unfold get_best_area_code at h ⊢
    rw [if_neg hif] at h ⊢
    have hspec := bestFromCommon_spec
      (get_common_area_codes env (bestZipList inp) cache)
    rw [hspec.1] at h
    refine ⟨hspec.2 c rest h, ?_⟩
    intro d hd
    rw [hspec.1] at hd
    have hsorted := common_sorted env (bestZipList inp) cache
    rw [h] at hsorted
    rw [h] at hd
    rw [List.sorted_cons] at hsorted
    rcases List.mem_cons.mp hd with he | hm
    · subst he; exact pyStrLe_refl _
    · exact hsorted.1 d hm

/-- Oracle environment in which the batch call fails with a transport
error and every single-code lookup resolves to the area code 972. -/
def envSolo972 : OracleEnv :=
  { apiKey := true
    singleReply := fun _ => some "### Area Code: 972"
    batchReply := fun _ => none }

/-- Closed witness for claim C3 at the specification example: both
postal codes resolve to 972, the common list is exactly plucked 972,
and the selected best code is 972. -/
theorem c3_best_is_least_common_witness :
    (get_best_area_code envSolo972 (.list ["75034", "75024"]) []).common
      = ["972"] ∧
    (get_best_area_code envSolo972 (.list ["75034", "75024"]) []).best
      = some "972" :=
  ⟨by decide, (c3_best_is_least_common envSolo972 (.list ["75034", "75024"])
    [] "972" [] (by decide)).1⟩

/-! ### Selection lemmas -/

/-- A collected candidate row that matches the target area code. -/
def candMatch (a : Option String) (r : PhoneRow) : Bool :=
  isPhoneRow r.text && rowMatchesArea a r.text

/-- A collected candidate row that does not match the target. -/
def candNoMatch (a : Option String) (r : PhoneRow) : Bool :=
  isPhoneRow r.text && !(rowMatchesArea a r.text)

/-- The collected candidate list is the matching rows in reverse
encounter order followed by the non-matching rows in encounter
order (the front-insertion of matches reverses them). -/
theorem gfpd_eq (a : Option String) (rows : List PhoneRow) :
    get_fresh_phone_data a rows =
      (rows.filter (candMatch a)).reverse ++ rows.filter (candNoMatch a) := by
  have main : ∀ (l : List PhoneRow) (M N : List PhoneRow),
      l.foldl (fun acc row =>
        if isPhoneRow row.text then
          if rowMatchesArea a row.text then row :: acc else acc ++ [row]
        else acc) (M.reverse ++ N)
      = (M ++ l.filter (candMatch a)).reverse ++ (N ++ l.filter (candNoMatch a)) := by
    intro l
    induction l with
    | nil => intro M N; simp
    | cons r rs ih =>
      intro M N
      simp only [List.foldl_cons]
      by_cases hp : isPhoneRow r.text = true
      · by_cases hm : rowMatchesArea a r.text = true
        · rw [if_pos hp, if_pos hm]
          rw [show r :: (M.reverse ++ N) = (M ++ [r]).reverse ++ N by simp]
          rw [ih (M ++ [r]) N]
          simp [List.filter_cons, candMatch, candNoMatch, hp, hm]
        · rw [if_pos hp, if_neg hm]
          rw [show (M.reverse ++ N) ++ [r] = M.reverse ++ (N ++ [r]) by simp]
          rw [ih M (N ++ [r])]
          simp [List.filter_cons, candMatch, candNoMatch, hp, hm]
      · rw [if_neg hp]
        rw [ih M N]
        simp [List.filter_cons, candMatch, candNoMatch, hp]
  have h0 := main rows [] []
  simpa [get_fresh_phone_data] using h0

/-- A candidate row whose text is unambiguous for the verification
step: it carries no "Current" marker, a phone number is extractable
from it, and the source's substring test for the target area code
agrees with comparing the extracted area code to the target. -/
def cleanCandidate (target : String) (r : PhoneRow) : Bool :=
  !(hasSub r.text "Current") &&
  (match searchPhoneParts r.text.toList with
   | some pa => rowMatchesArea (some target) r.text == (pa.2 == target)
   | none => false)

/-- Counterexample to claim C1 as stated: with two matching candidates
the source's front-insertion selects the one with the highest row
position, not the lowest; here rows 0 and 1 both carry area code 972
and row 1 is selected. -/
theorem c1_counterexample :
    candMatch (some "972") ⟨"+1 972-555-0001"⟩ = true ∧
    (selectPhone (some "972")
      [⟨"+1 972-555-0001"⟩, ⟨"+1 972-555-0002"⟩]).selected
      = some ⟨"+1 972-555-0002"⟩ ∧
    (selectPhone (some "972")
      [⟨"+1 972-555-0001"⟩, ⟨"+1 972-555-0002"⟩]).selected
      ≠ some ⟨"+1 972-555-0001"⟩ := by
  refine ⟨by decide, by decide, by decide⟩

/-- Claim C1 amended: if at least one collected candidate matches the
target area code, the candidate whose radio button is clicked and
whose info is returned is the matching candidate with the highest row
position (the last matching row in rendered order - the source's
front-insertion reverses the matches), whenever a phone number is
extractable from that row's text; this holds even when that row
carries a "Current" marker, in which case the capture is marked
Existing but the row is still selected.  The outcome reason is
MatchedAreaCode when that row carries no "Current" marker and its
area-code substring test agrees with its extracted area code, as in
the specification example. -/
theorem c1_last_matching_candidate_selected (target : String)
    (rows : List PhoneRow) (ht : target ≠ "")
    (hex : rows.filter (candMatch (some target)) ≠ []) :
    ∃ m, (rows.filter (candMatch (some target))).getLast? = some m ∧
      (∀ pa, searchPhoneParts m.text.toList = some pa →
        (selectPhone (some target) rows).selected = some m) ∧
      (cleanCandidate target m = true →
        (selectPhone (some target) rows).selected = some m ∧
        (selectPhone (some target) rows).reason = .MatchedAreaCode) := by
  rcases List.eq_nil_or_concat (rows.filter (candMatch (some target))) with
    hnil | ⟨init, m, hms⟩
  · exact absurd hnil hex
  rw [List.concat_eq_append] at hms
  have hmem : m ∈ rows.filter (candMatch (some target)) := by
    rw [hms]
    exact List.mem_append_right init (List.mem_singleton_self m)
  have hmem2 := List.mem_filter.mp hmem
  have hcm : candMatch (some target) m = true := hmem2.2
  have hphone : isPhoneRow m.text = true := by
    have := hcm
    unfold candMatch at this
    exact (Bool.and_eq_true _ _ |>.mp this).1
  have hmatch : rowMatchesArea (some target) m.text = true := by
    have := hcm
    unfold candMatch at this
    exact (Bool.and_eq_true _ _ |>.mp this).2
  have hnoDefault : hasSub m.text "Default Number" = false := by
    unfold isPhoneRow at hphone
    have := (Bool.and_eq_true _ _ |>.mp hphone).2
    simpa using this
  have hgfpd : get_fresh_phone_data (some target) rows
      = m :: (init.reverse ++ rows.filter (candNoMatch (some target))) := by
    rw [gfpd_eq, hms]
    simp
  refine ⟨m, by rw [hms]; exact List.getLast?_concat init, ?_, ?_⟩
  · intro pa hpa
    obtain ⟨ph, ar⟩ := pa
    unfold selectPhone
    rw [hgfpd]
    dsimp only
    rw [hpa]
    dsimp only
    split
    · rfl
    · split
      · rfl
      · split <;> rfl
  · intro hcl
    have hnoCurrent : hasSub m.text "Current" = false := by
      unfold cleanCandidate at hcl
      have := (Bool.and_eq_true _ _ |>.mp hcl).1
      simpa using this
    cases hpa : searchPhoneParts m.text.toList with
    | none =>
      unfold cleanCandidate at hcl
      rw [hpa] at hcl
      simp at hcl
    | some pa =>
      obtain ⟨ph, ar⟩ := pa
      have har : ar = target := by
        unfold cleanCandidate at hcl
        rw [hpa] at hcl
        have := (Bool.and_eq_true _ _ |>.mp hcl).2
        rw [hmatch] at this
        have := (beq_iff_eq.mp this).symm
        exact beq_iff_eq.mp (by rw [this])
      have houtcome : selectPhone (some target) rows
          = ⟨some m, ph, .MatchedAreaCode⟩ := by
        unfold selectPhone
        rw [hgfpd]
        dsimp only
        rw [hpa]
        dsimp only
        rw [if_neg (by rw [hnoDefault, hnoCurrent]; simp)]
        rw [if_neg (by simpa using ht)]
        rw [if_pos (by rw [har]; simp)]
      exact ⟨by rw [houtcome], by rw [houtcome]⟩

/-- Closed witness for claim C1 (amended) at the specification
example: rows 0 and 1 carry 469 and 972 and the target is 972; the
single matching candidate, row 1, is selected with reason
MatchedAreaCode. -/
theorem c1_last_matching_candidate_selected_witness :
    (["+1 469-555-0001", "+1 972-555-0002"].map PhoneRow.mk).filter
      (candMatch (some "972")) = [⟨"+1 972-555-0002"⟩] ∧
    (selectPhone (some "972")
      (["+1 469-555-0001", "+1 972-555-0002"].map PhoneRow.mk)).selected
      = some ⟨"+1 972-555-0002"⟩ ∧
    (selectPhone (some "972")
      (["+1 469-555-0001", "+1 972-555-0002"].map PhoneRow.mk)).reason
      = .MatchedAreaCode := by
  refine ⟨by decide, ?_, ?_⟩ <;>
  · obtain ⟨m, hm1, _, hm3⟩ := c1_last_matching_candidate_selected "972"
      (["+1 469-555-0001", "+1 972-555-0002"].map PhoneRow.mk)
      (by decide) (by decide)
    have hmeq : m = ⟨"+1 972-555-0002"⟩ := by
      rw [show (["+1 469-555-0001", "+1 972-555-0002"].map PhoneRow.mk).filter
        (candMatch (some "972")) = [⟨"+1 972-555-0002"⟩] from by decide] at hm1
      cases hm1
      rfl
    rw [hmeq] at hm3
    have hout := hm3 (by decide)
    first
      | exact hout.1
      | exact hout.2

/-- Shape of every selection outcome: either nothing is selected (no
candidate rows, or no phone number extractable from the top row, the
two cases in which the source's click block is skipped), or the top
collected candidate is the selected one - the source clicks its radio
and returns its info whenever the captured phone_number differs from
"Unknown", markers included. -/
theorem selectPhone_spec (a : Option String) (rows : List PhoneRow) :
    selectPhone a rows = ⟨none, "Unknown", .NoCandidates⟩ ∨
    selectPhone a rows = ⟨none, "Unknown", .AllCandidatesInvalid⟩ ∨
    (∃ first rest, get_fresh_phone_data a rows = first :: rest ∧
      (selectPhone a rows).selected = some first) := by
  unfold selectPhone
  split
  · exact Or.inl rfl
  · rename_i first rest hobs
    split
    · exact Or.inr (Or.inl rfl)
    · refine Or.inr (Or.inr ⟨first, rest, hobs, ?_⟩)
      split
      · rfl
      · split
        · rfl
        · split
          · rfl
          · split <;> rfl

/-- Counterexample to claim C4 as stated: a sole candidate row marked
"Current" is flagged existing-assigned, yet it IS the selected
candidate - the source marks the capture "Existing" (line 534) but
the click block only checks phone_number != "Unknown" (line 608), so
the flagged row's radio is clicked, the purchase proceeds
(proceed_anyway is True, lines 772-773), and its info is returned as
selected_phone_number (line 912); no no-selection outcome is
produced. -/
theorem c4_counterexample :
    isExistingAssigned ⟨"Current +1 972-555-0001"⟩ = true ∧
    selectPhone (some "972") [⟨"Current +1 972-555-0001"⟩]
      = ⟨some ⟨"Current +1 972-555-0001"⟩, "Existing", .AllCandidatesInvalid⟩ ∧
    (selectPhone (some "972") [⟨"Current +1 972-555-0001"⟩]).selected
      ≠ none := by
  refine ⟨by decide, by decide, by decide⟩

/-- Claim C4 amended: only the "Default Number" flavor of
existing-assigned candidates is never selected - such rows are
filtered before collection, and as the only entry they yield the
no-selection outcome with reason NoCandidates and phone_number
"Unknown".  A candidate marked only "Current" is collected, captured
and marked "Existing", and is nevertheless selected: its radio is
clicked and its info returned, with reason AllCandidatesInvalid
recording the flag. -/
theorem c4_default_number_never_selected :
    (∀ (a : Option String) (rows : List PhoneRow) (r : PhoneRow),
      hasSub r.text "Default Number" = true →
      (selectPhone a rows).selected ≠ some r) ∧
    (∀ (a : Option String) (r : PhoneRow),
      hasSub r.text "Default Number" = true →
      selectPhone a [r] = ⟨none, "Unknown", .NoCandidates⟩) ∧
    (∀ (a : Option String) (r : PhoneRow) (pa : String × String),
      hasSub r.text "Current" = true → isPhoneRow r.text = true →
      searchPhoneParts r.text.toList = some pa →
      selectPhone a [r] = ⟨some r, "Existing", .AllCandidatesInvalid⟩) := by
  refine ⟨?_, ?_, ?_⟩
  · intro a rows r hr hsel
    rcases selectPhone_spec a rows with h | h | ⟨first, rest, hobs, hsel2⟩
    · rw [h] at hsel; simp at hsel
    · rw [h] at hsel; simp at hsel
    · have hfr : first = r := Option.some_inj.mp (hsel2.symm.trans hsel)
      rw [hfr] at hobs
      have hm : r ∈ get_fresh_phone_data a rows := by
        rw [hobs]; exact List.mem_cons_self r rest
      rw [gfpd_eq] at hm
      have hpr : isPhoneRow r.text = true := by
        rcases List.mem_append.mp hm with h2 | h2
        · have := (List.mem_filter.mp (List.mem_reverse.mp h2)).2
          unfold candMatch at this
          exact (Bool.and_eq_true _ _ |>.mp this).1
        · have := (List.mem_filter.mp h2).2
          unfold candNoMatch at this
          exact (Bool.and_eq_true _ _ |>.mp this).1
      unfold isPhoneRow at hpr
      have hnd := (Bool.and_eq_true _ _ |>.mp hpr).2
      rw [hr] at hnd
      simp at hnd
  · intro a r hr
    have hfilter : isPhoneRow r.text = false := by
      unfold isPhoneRow
      rw [hr]
      simp
    unfold selectPhone
    rw [show get_fresh_phone_data a [r] = [] from by
      unfold get_fresh_phone_data
      rw [List.foldl_cons,
        if_neg (by rw [hfilter]; exact Bool.false_ne_true), List.foldl_nil]]
  · intro a r pa hcur hpr hpa
    obtain ⟨ph, ar⟩ := pa
    have hgf : get_fresh_phone_data a [r] = [r] := by
      unfold get_fresh_phone_data
      rw [List.foldl_cons, if_pos hpr]
      split
      · rw [List.foldl_nil]
      · rw [List.foldl_nil]
        rfl
    unfold selectPhone
    rw [hgf]
    dsimp only
    rw [hpa]
    dsimp only
    rw [if_pos (by rw [hcur]; simp)]

/-- Closed witness for claim C4 (amended): a sole "Default Number" row
yields NoCandidates and is never the selected candidate, while a sole
"Current" row IS selected with the Existing marker. -/
theorem c4_default_number_never_selected_witness :
    hasSub "Default Number +1 972-555-0001" "Default Number" = true ∧
    selectPhone (some "972") [⟨"Default Number +1 972-555-0001"⟩]
      = ⟨none, "Unknown", .NoCandidates⟩ ∧
    (selectPhone (some "972") [⟨"Default Number +1 972-555-0001"⟩]).selected
      ≠ some ⟨"Default Number +1 972-555-0001"⟩ ∧
    selectPhone (some "972") [⟨"Current +1 972-555-0001"⟩]
      = ⟨some ⟨"Current +1 972-555-0001"⟩, "Existing", .AllCandidatesInvalid⟩ := by
  have h : hasSub "Default Number +1 972-555-0001" "Default Number" = true := by
    decide
  exact ⟨h,
    c4_default_number_never_selected.2.1 (some "972")
      ⟨"Default Number +1 972-555-0001"⟩ h,
    c4_default_number_never_selected.1 (some "972") _ _ h,
    c4_default_number_never_selected.2.2 (some "972")
      ⟨"Current +1 972-555-0001"⟩ ("+1 972-555-0001", "972")
      (by decide) (by decide) (by decide)⟩

/-! ### Batch positional fallback (claim C6) -/

theorem dictLookup_none_of_not_key (d : StrDict) (k : String)
    (h : k ∉ d.map Prod.fst) : dictLookup d k = none := by
  induction d with
  | nil => rfl
  | cons p rest ih =>
    have hp : p.1 ≠ k := by
      intro he
      exact h (by rw [← he]; exact List.mem_cons_self _ _)
    rw [dictLookup, if_neg (by simpa using hp)]
    exact ih (fun hm => h (List.mem_cons_of_mem _ hm))

theorem dictMerge_lookup_some (a b : StrDict) (k : String) (w : List String)
    (hnodup : (b.map Prod.fst).Nodup) (h : dictLookup b k = some w) :
    dictLookup (dictMerge a b) k = some w := by
  induction b generalizing a with
  | nil => simp [dictLookup] at h
  | cons p rest ih =>
    simp only [dictMerge, List.foldl_cons]
    show dictLookup (dictMerge (dictInsert a p.1 p.2) rest) k = some w
    rw [List.map_cons, List.nodup_cons] at hnodup
    by_cases hp : p.1 = k
    · rw [dictLookup, if_pos (by simpa using hp)] at h
      have hrest : dictLookup rest k = none :=
        dictLookup_none_of_not_key rest k (by rw [← hp]; exact hnodup.1)
      rw [dictMerge_lookup_none _ _ _ hrest, hp,
        dictLookup_insert_self]
      exact h
    · rw [dictLookup, if_neg (by simpa using hp)] at h
      exact ih (dictInsert a p.1 p.2) hnodup.2 h

theorem dictInsert_keys (d : StrDict) (k : String) (v : List String) :
    (dictInsert d k v).map Prod.fst =
      if k ∈ d.map Prod.fst then d.map Prod.fst else d.map Prod.fst ++ [k] := by
  induction d with
  | nil => simp [dictInsert]
  | cons p rest ih =>
    by_cases hp : p.1 = k
    · rw [show dictInsert (p :: rest) k v = (k, v) :: rest from by
        simp [dictInsert, hp]]
      simp [hp]
    · rw [show dictInsert (p :: rest) k v = p :: dictInsert rest k v from by
        simp [dictInsert, hp]]
      by_cases hm : k ∈ rest.map Prod.fst
      · simp [ih, hm]
      · have : ¬ k ∈ (p :: rest).map Prod.fst := by
          simp [hm, Ne.symm hp]
        simp [ih, hm, this, Ne.symm hp]

theorem dictInsert_keys_nodup (d : StrDict) (k : String) (v : List String)
    (h : (d.map Prod.fst).Nodup) :
    ((dictInsert d k v).map Prod.fst).Nodup := by
  rw [dictInsert_keys]
  by_cases hm : k ∈ d.map Prod.fst
  · simpa [hm] using h
  · rw [if_neg hm]
    simp [List.nodup_append, h, hm]

theorem positionalFill_keys_nodup (pairs : List (String × String))
    (st : StrDict × Cache) (h : (st.1.map Prod.fst).Nodup) :
    ((positionalFill pairs st).1.map Prod.fst).Nodup := by
  refine foldl_inv _ (fun s => (s.1.map Prod.fst).Nodup) pairs ?_ st h
  intro s p _ hs
  exact dictInsert_keys_nodup s.1 p.1 [p.2] hs

theorem positionalFill_lookup (pairs : List (String × String))
    (st : StrDict × Cache) (k t : String)
    (hnodup : (pairs.map Prod.fst).Nodup) (hkt : (k, t) ∈ pairs) :
    dictLookup (positionalFill pairs st).1 k = some [t] := by
  induction pairs generalizing st with
  | nil => exact absurd hkt (List.not_mem_nil _)
  | cons p rest ih =>
    simp only [positionalFill, List.foldl_cons]
    show dictLookup (positionalFill rest
      (dictInsert st.1 p.1 [p.2], dictInsert st.2 p.1 [p.2])).1 k = some [t]
    rw [List.map_cons, List.nodup_cons] at hnodup
    rcases List.mem_cons.mp hkt with he | hm
    · cases he
      have hz : ∀ q ∈ rest, q.1 ≠ k := by
        intro q hq he2
        have hmm : q.1 ∈ rest.map Prod.fst := List.mem_map_of_mem Prod.fst hq
        rw [he2] at hmm
        exact hnodup.1 hmm
      rw [(positionalFill_pres rest _ k hz).1]
      exact dictLookup_insert_self _ _ _
    · exact ih _ hnodup.2 hm

/-- Oracle environment whose batch reply carries a single three-digit
token and no structured section. -/
def envOneToken : OracleEnv :=
  { apiKey := true
    singleReply := fun _ => none
    batchReply := fun _ => some "Sorry, 123." }

/-- Oracle environment whose batch reply carries two three-digit
tokens and no structured section. -/
def envTwoTokens : OracleEnv :=
  { apiKey := true
    singleReply := fun _ => none
    batchReply := fun _ => some "469 972" }

/-- Counterexample to claim C6 as stated: for the batch request
{75034, 99999} the reply "Sorry, 123." defeats structured parsing and
contains the three-digit token 123, yet no postal code is mapped to
the token at its position - the fallback runs only when the reply has
at least as many three-digit tokens as requested codes. -/
theorem c6_counterexample :
    findSections "Sorry, 123.".toList = [] ∧
    boundedDigitTokensL 3 "Sorry, 123.".toList = ["123"] ∧
    uncachedPart [] ["75034", "99999"] = ["75034", "99999"] ∧
    (get_area_codes_batch_openai envOneToken ["75034", "99999"] []).result
      = [] ∧
    dictLookup (get_area_codes_batch_openai envOneToken
      ["75034", "99999"] []).result "75034" = none := by
  refine ⟨by decide, by decide, by decide, by decide, by decide⟩

/-- Claim C6 amended: when the structured parse of a batch reply
yields no matches and the reply contains at least as many three-digit
tokens as there are requested uncached postal codes, each uncached
code (with no duplicates among them) is mapped to the token at its
position; with fewer tokens than codes the fallback does not run and
the affected codes are absent from the result. -/
theorem c6_positional_fallback (env : OracleEnv) (zips : List String)
    (cache : Cache) (content : String) (i : Nat)
    (hkey : env.apiKey = true)
    (hzne : zips.isEmpty = false)
    (hune : (uncachedPart cache zips).isEmpty = false)
    (hnodup : (uncachedPart cache zips).Nodup)
    (hreply : env.batchReply (uncachedPart cache zips) = some content)
    (hsf : (structuredFill (uncachedPart cache zips)
      (findSections content.toList) ([], cache)).1 = [])
    (hlen : (uncachedPart cache zips).length ≤
      (boundedDigitTokensL 3 content.toList).length)
    (hi : i < (uncachedPart cache zips).length) :
    dictLookup (get_area_codes_batch_openai env zips cache).result
      ((uncachedPart cache zips).get ⟨i, hi⟩)
      = some [(boundedDigitTokensL 3 content.toList).get
          ⟨i, Nat.lt_of_lt_of_le hi hlen⟩] := by
  have hi2 : i < (boundedDigitTokensL 3 content.toList).length :=
    Nat.lt_of_lt_of_le hi hlen
  rw [List.get_eq_getElem, List.get_eq_getElem]
  unfold get_area_codes_batch_openai
  rw [if_neg (by rw [hkey, hzne]; simp),
    if_neg (by rw [hune]; exact Bool.false_ne_true), hreply]
  dsimp only
  unfold batchContentResult
  rw [if_pos (by rw [hsf]; rfl), if_pos hlen]
  have hkeys : (((uncachedPart cache zips).zip
      (boundedDigitTokensL 3 content.toList)).map Prod.fst).Nodup := by
    rw [List.map_fst_zip _ _ hlen]
    exact hnodup
  have hmem : ((uncachedPart cache zips)[i],
      (boundedDigitTokensL 3 content.toList)[i]) ∈
      (uncachedPart cache zips).zip (boundedDigitTokensL 3 content.toList) := by
    have hlen2 : i < ((uncachedPart cache zips).zip
        (boundedDigitTokensL 3 content.toList)).length := by
      rw [List.length_zip]; omega
    have hm : ((uncachedPart cache zips).zip
        (boundedDigitTokensL 3 content.toList))[i] ∈
        (uncachedPart cache zips).zip (boundedDigitTokensL 3 content.toList) :=
      List.getElem_mem hlen2
    rw [List.getElem_zip] at hm
    exact hm
  have hfill := positionalFill_lookup
    ((uncachedPart cache zips).zip (boundedDigitTokensL 3 content.toList))
    ([], (structuredFill (uncachedPart cache zips)
      (findSections content.toList) ([], cache)).2)
    ((uncachedPart cache zips)[i])
    ((boundedDigitTokensL 3 content.toList)[i])
    hkeys hmem
  exact dictMerge_lookup_some _ _ _ _
    (positionalFill_keys_nodup _ _ (by simp)) hfill

/-- Closed witness for claim C6 (amended): the reply "469 972" with
requests {75034, 99999} maps 75034 to 469 and 99999 to 972. -/
theorem c6_positional_fallback_witness :
    dictLookup (get_area_codes_batch_openai envTwoTokens
      ["75034", "99999"] []).result "75034" = some ["469"] ∧
    dictLookup (get_area_codes_batch_openai envTwoTokens
      ["75034", "99999"] []).result "99999" = some ["972"] := by
  have h0 := c6_positional_fallback envTwoTokens ["75034", "99999"] []
    "469 972" 0 rfl (by decide) (by decide) (by decide) rfl (by decide)
    (by decide) (by decide)
  have h1 := c6_positional_fallback envTwoTokens ["75034", "99999"] []
    "469 972" 1 rfl (by decide) (by decide) (by decide) rfl (by decide)
    (by decide) (by decide)
  exact ⟨h0, h1⟩

/-! ### Parser lemmas (claims C7 and C8) -/

theorem wordRunsAux_cons (cur : List Char) (c : Char) (cs : List Char) :
    wordRunsAux cur (c :: cs) =
      if isWordChar c then wordRunsAux (c :: cur) cs
      else if cur.isEmpty then wordRunsAux [] cs
      else cur.reverse :: wordRunsAux [] cs := rfl

theorem splitCommaAux_cons (cur : List Char) (c : Char) (cs : List Char) :
    splitCommaAux cur (c :: cs) =
      if c == ',' then cur.reverse :: splitCommaAux [] cs
      else splitCommaAux (c :: cur) cs := rfl

theorem wordRunsAux_append_nonword (nw : Char) (hnw : isWordChar nw = false)
    (a b : List Char) : ∀ cur,
    wordRunsAux cur (a ++ nw :: b) = wordRunsAux cur a ++ wordRunsAux [] b := by
  induction a with
  | nil =>
    intro cur
    show wordRunsAux cur (nw :: b) = wordRunsAux cur [] ++ wordRunsAux [] b
    rw [wordRunsAux_cons, if_neg (by rw [hnw]; exact Bool.false_ne_true)]
    by_cases hc : cur.isEmpty = true
    · rw [if_pos hc]
      have : cur = [] := by
        cases cur with
        | nil => rfl
        | cons d ds => exact absurd hc (by simp)
      subst this
      rfl
    · rw [if_neg hc]
      show _ = (if cur.isEmpty then [] else [cur.reverse]) ++ wordRunsAux [] b
      rw [if_neg hc]
      rfl
  | cons x a2 ih =>
    intro cur
    show wordRunsAux cur (x :: (a2 ++ nw :: b))
      = wordRunsAux cur (x :: a2) ++ wordRunsAux [] b
    rw [wordRunsAux_cons, wordRunsAux_cons]
    by_cases hx : isWordChar x = true
    · rw [if_pos hx, if_pos hx]
      exact ih (x :: cur)
    · rw [if_neg hx, if_neg hx]
      by_cases hc : cur.isEmpty = true
      · rw [if_pos hc, if_pos hc]
        exact ih []
      · rw [if_neg hc, if_neg hc]
        rw [ih []]
        rfl

theorem splitComma_wordRuns (cs : List Char) : ∀ pre : List Char,
    ((splitCommaAux pre cs).map (fun ch => wordRunsAux [] ch)).flatten
      = wordRunsAux [] (pre.reverse ++ cs) := by
  induction cs with
  | nil =>
    intro pre
    show ([pre.reverse].map (fun ch => wordRunsAux [] ch)).flatten
      = wordRunsAux [] (pre.reverse ++ [])
    simp
  | cons c cs2 ih =>
    intro pre
    rw [splitCommaAux_cons]
    by_cases hc : (c == ',') = true
    · have hcc : c = ',' := beq_iff_eq.mp hc
      subst hcc
      rw [if_pos (by decide)]
      rw [List.map_cons, List.flatten_cons, ih []]
      rw [wordRunsAux_append_nonword ',' (by decide) pre.reverse cs2 []]
      simp
    · rw [if_neg hc]
      rw [ih (c :: pre)]
      simp

theorem flatten_map_filter {α β : Type _} (p : α → Bool) (f : α → β)
    (L : List (List α)) :
    (L.map (fun l => (l.filter p).map f)).flatten = (L.flatten.filter p).map f := by
  induction L with
  | nil => rfl
  | cons l rest ih =>
    simp only [List.map_cons, List.flatten_cons, List.filter_append,
      List.map_append, ih]

/-- Counterexample to claim C7 as stated: in "zip75034" the five-digit
run is bounded on the left by a non-digit (the letter p), so the claim
says it is recovered, but the source's word-boundary regex does not
match it - the digits must be bounded by non-word characters - and
parse returns nothing. -/
theorem c7_counterexample :
    jsonListParse "zip75034" = none ∧
    specDigitTokens5 "zip75034" = ["75034"] ∧
    parse_zip_codes (.str "zip75034") = [] ∧
    ¬ "75034" ∈ parse_zip_codes (.str "zip75034") := by
  refine ⟨by decide, by decide, by decide, by decide⟩

/-- Claim C7 amended: for every string input that is not parseable as
a structured list, parse returns exactly the maximal runs of five
digits of the separator-normalized string that are bounded by
non-word characters (not letters, digits or underscore) or the string
edges - word boundaries, not merely non-digit boundaries. -/
theorem c7_parse_returns_word_bounded_runs (s t : String)
    (hjson : jsonListParse s = none) :
    t ∈ parse_zip_codes (.str s) ↔
      t ∈ boundedDigitTokensL 5 (normalizeSeps s.toList) := by
  unfold parse_zip_codes
  dsimp only
  by_cases hs : s == ""
  · rw [if_pos hs]
    have hse : s = "" := beq_iff_eq.mp hs
    subst hse
    show t ∈ ([] : List String) ↔ t ∈ boundedDigitTokensL 5 (normalizeSeps [])
    simp [normalizeSeps, boundedDigitTokensL, wordRunsAux]
  · rw [if_neg hs, hjson]
    unfold parseFallbackTokens
    rw [List.mem_dedup]
    simp only [boundedDigitTokensL]
    rw [show (splitCommaAux [] (normalizeSeps s.toList)).map
        (fun ch => ((wordRunsAux [] ch).filter
          (fun r => r.length == 5 && r.all Char.isDigit)).map
            (fun r => (⟨r⟩ : String)))
      = ((splitCommaAux [] (normalizeSeps s.toList)).map
          (fun ch => wordRunsAux [] ch)).map
        (fun l => (l.filter (fun r => r.length == 5 && r.all Char.isDigit)).map
          (fun r => (⟨r⟩ : String))) from by rw [List.map_map]; rfl]
    rw [flatten_map_filter]
    rw [splitComma_wordRuns (normalizeSeps s.toList) []]
    rfl

/-- Closed witness for claim C7 (amended): a five-digit run embedded
in surrounding text with word boundaries, as in "zip 75034!", is
recovered. -/
theorem c7_parse_returns_word_bounded_runs_witness :
    ("75034" ∈ parse_zip_codes (.str "zip 75034!") ↔
      "75034" ∈ boundedDigitTokensL 5 (normalizeSeps "zip 75034!".toList)) ∧
    "75034" ∈ parse_zip_codes (.str "zip 75034!") := by
  refine ⟨c7_parse_returns_word_bounded_runs "zip 75034!" "75034" (by decide), ?_⟩
  decide

/-- Counterexample to claim C8 as stated: a sequence input is trimmed
and filtered but never deduplicated, so a duplicated postal code
survives. -/
theorem c8_counterexample :
    parse_zip_codes (.list ["75034", "75034"]) = ["75034", "75034"] ∧
    ¬ (parse_zip_codes (.list ["75034", "75034"])).Nodup := by
  refine ⟨by decide, by decide⟩

/-- Claim C8 amended: string inputs that are not parseable as
structured lists yield a duplicate-free list; sequence inputs (and
JSON-array strings) are only trimmed and filtered, so they may retain
duplicates; the three example inputs each yield exactly the value set
of 75034 and 75024. -/
theorem c8_string_parse_deduplicates (s : String)
    (hjson : jsonListParse s = none) :
    (parse_zip_codes (.str s)).Nodup ∧
    parse_zip_codes (.str "75034, 75024") = ["75034", "75024"] ∧
    parse_zip_codes (.list ["75034", "75024"]) = ["75034", "75024"] ∧
    parse_zip_codes (.str "75034\n75024") = ["75034", "75024"] := by
  refine ⟨?_, by decide, by decide, by decide⟩
  unfold parse_zip_codes
  dsimp only
  by_cases hs : s == ""
  · rw [if_pos hs]
    exact List.nodup_nil
  · rw [if_neg hs, hjson]
    exact List.nodup_dedup _

/-- Closed witness for claim C8 (amended): the duplicated string input
"75034 75034" parses to the single-element duplicate-free list. -/
theorem c8_string_parse_deduplicates_witness :
    (parse_zip_codes (.str "75034 75034")).Nodup ∧
    parse_zip_codes (.str "75034 75034") = ["75034"] :=
  ⟨(c8_string_parse_deduplicates "75034 75034" (by decide)).1, by decide⟩

end AreaCodeCore
